import Mathlib

/-!
Verification development for the LINE Korean↔Thai translation webhook.

The repository contains several near-duplicate variants of one pipeline:
* `src/api/webhook.js` holds two variants; we call the one at lines 45-194
  "V1" and the one at lines 240-378 "V2".
* `src/unnamed/part_000` ("P0") is V2 without the honorific-suffix step.
* `src/unnamed/part_001` ("P1") uses a three-model fallback chain and no
  per-event catch around the reply call.
* `src/unnamed/part_002` holds the retry/backoff variant ("P2", lines 1-230)
  and a further plain variant (lines 231-335, "P2b").
* `src/unnamed/part_003` ("P3") is the text-only variant with a single
  model fallback hop.

Text is modelled as `List Char` (JS strings are sequences of code points for
the operations used here; none of the regexes involved are affected by
surrogate pairing since all characters concerned are in the BMP).
-/

namespace LineTh

/-- Characters of a string literal; the form used throughout this file. -/
def lc (s : String) : List Char := s.data

/-- JavaScript whitespace: the regex class `\s`, which is also the character
set removed by `String.prototype.trim`. -/
def isJsWs (c : Char) : Bool :=
  c == ' ' || c == '\t' || c == '\n' || c.toNat == 11 || c.toNat == 12 || c == '\r' ||
  c.toNat == 0xA0 || c.toNat == 0x1680 || (0x2000 ≤ c.toNat && c.toNat ≤ 0x200A) ||
  c.toNat == 0x2028 || c.toNat == 0x2029 || c.toNat == 0x202F || c.toNat == 0x205F ||
  c.toNat == 0x3000 || c.toNat == 0xFEFF

/-- JS `s.replace(/\s+$/, "")`: drop trailing whitespace. -/
def rtrimL (s : List Char) : List Char := (s.reverse.dropWhile isJsWs).reverse

/-- JS `s.trim()`. -/
def trimL (s : List Char) : List Char := rtrimL (s.dropWhile isJsWs)

/-- Boolean substring test: the model of JS `String.prototype.includes`. -/
def containsSub (w : List Char) : List Char → Bool
  | [] => w.isEmpty
  | c :: rest => w.isPrefixOf (c :: rest) || containsSub w rest

/-- Hangul precomposed syllables, the JS class `[가-힣]` (U+AC00–U+D7A3). -/
def isHangulSyl (c : Char) : Bool := 0xAC00 ≤ c.toNat && c.toNat ≤ 0xD7A3

/-- Any Hangul-script code point (syllables, jamo, compatibility jamo,
extended jamo, half-width forms). -/
def isHangulChar (c : Char) : Bool :=
  isHangulSyl c ||
  (0x1100 ≤ c.toNat && c.toNat ≤ 0x11FF) ||
  (0x3130 ≤ c.toNat && c.toNat ≤ 0x318F) ||
  (0xA960 ≤ c.toNat && c.toNat ≤ 0xA97F) ||
  (0xD7B0 ≤ c.toNat && c.toNat ≤ 0xD7FF) ||
  (0xFFA0 ≤ c.toNat && c.toNat ≤ 0xFFDC)

/-- Thai block code point, the JS class `[฀-๿]`. -/
def isThaiChar (c : Char) : Bool := 0x0E00 ≤ c.toNat && c.toNat ≤ 0x0E7F

/-- webhook.js `hasHangul`. -/
def hasHangulB (s : List Char) : Bool := s.any isHangulSyl

/-- webhook.js `hasThai` and part_002 `detectThai`. -/
def hasThaiB (s : List Char) : Bool := s.any isThaiChar

/-- JS `s.replace(/[가-힣]/g, "")`: strip Hangul syllables. -/
def stripHangul (s : List Char) : List Char := s.filter (fun c => !(isHangulSyl c))

/-! ### Laughter normalization: `s.replace(/ㅋㅋ+|ㅎㅎ+|하하+/g, "555")`

The regex rewrites every maximal run of two or more of the same laughter
character into `555`; single laughter characters pass through.  `laughGo`
scans left to right; the `Option Char` state records the laughter character
of a run whose remainder is still being consumed (the run's replacement has
already been emitted). -/

def isLaugh (c : Char) : Bool := c == 'ㅋ' || c == 'ㅎ' || c == '하'

/-- Does the skip state swallow this character? -/
def skipEq : Option Char → Char → Bool
  | some c, d => d == c
  | none, _ => false

def laughGo (m : Option Char) : List Char → List Char
  | [] => []
  | d :: rest =>
    if skipEq m d then laughGo m rest
    else if isLaugh d && rest.head? == some d then
      '5' :: '5' :: '5' :: laughGo (some d) rest
    else d :: laughGo none rest

/-- The laughter-normalization step of `enforceThaiRules`. -/
def laugh555 (s : List Char) : List Char := laughGo none s

/-! ### Proper-noun enforcement -/

def kaeo : List Char := lc "แก้ว"
def kkaeu : List Char := lc "깨우"

/-- The mis-transliteration alternatives of
`/เกอู|แกอู|Kaeu|Kaeo|Gaeu|Gaeo/gi`, in the regex's order. -/
def translitPats : List (List Char) :=
  [lc "เกอู", lc "แกอู", lc "Kaeu", lc "Kaeo", lc "Gaeu", lc "Gaeo"]

/-- Case-insensitive prefix match (the regex `i` flag; all cased characters
involved are ASCII). -/
def matchesCI : List Char → List Char → Bool
  | [], _ => true
  | _ :: _, [] => false
  | p :: ps, c :: cs => (p.toLower == c.toLower) && matchesCI ps cs

/-- If a mis-transliteration starts here, return how many further characters
(beyond the current one) it covers. -/
def tryPats (s : List Char) : Option Nat :=
  (translitPats.find? (fun p => matchesCI p s)).map (fun p => p.length - 1)

/-- Global replace of the mis-transliteration patterns by `แก้ว`; the `Nat`
counts characters of a match still to be dropped. -/
def translitGo : Nat → List Char → List Char
  | _, [] => []
  | Nat.succ k, _ :: cs => translitGo k cs
  | 0, c :: cs =>
    match tryPats (c :: cs) with
    | some k => kaeo ++ translitGo k cs
    | none => c :: translitGo 0 cs

/-- `s.replace(/เกอู|แกอู|Kaeu|Kaeo|Gaeu|Gaeo/gi, "แก้ว")`. -/
def translitReplace (s : List Char) : List Char := translitGo 0 s

def khun : List Char := lc "คุณ"
def thoe : List Char := lc "เธอ"

/-- Strip a leading `คุณ` or `เธอ` (the regex alternation, in order). -/
def stripAnyPronoun (s : List Char) : Option (List Char) :=
  if khun.isPrefixOf s then some (s.drop khun.length)
  else if thoe.isPrefixOf s then some (s.drop thoe.length)
  else none

/-- Match the third group `(\s|$)` after the pronoun: either one whitespace
character or the end of the string. Returns the captured text and the rest. -/
def pronounTail : List Char → Option (List Char × List Char)
  | [] => some ([], [])
  | c :: r => if isJsWs c then some ([c], r) else none

/-- Try `/(^|\s)(คุณ|เธอ)(\s|$)/` at the current position.  At the start of
the string the `^` alternative of group 1 is tried first (capturing nothing);
otherwise group 1 must capture one whitespace character.  On success, return
the replacement text `$1แก้ว$3` and the unconsumed rest. -/
def tryKhunHere (atStart : Bool) (s : List Char) : Option (List Char × List Char) :=
  let startTry : Option (List Char × List Char) :=
    if atStart then
      match stripAnyPronoun s with
      | some r2 =>
        match pronounTail r2 with
        | some (g3, rest) => some (kaeo ++ g3, rest)
        | none => none
      | none => none
    else none
  match startTry with
  | some x => some x
  | none =>
    match s with
    | [] => none
    | c :: s' =>
      if isJsWs c then
        match stripAnyPronoun s' with
        | some r2 =>
          match pronounTail r2 with
          | some (g3, rest) => some (c :: (kaeo ++ g3), rest)
          | none => none
        | none => none
      else none

def replaceKhunGo : Bool → List Char → List Char
  | _, [] => []
  | atStart, c :: cs =>
    match tryKhunHere atStart (c :: cs) with
    | some (chunk, rest) => chunk ++ rest
    | none => c :: replaceKhunGo false cs

/-- `s.replace(/(^|\s)(คุณ|เธอ)(\s|$)/, "$1แก้ว$3")` (first match only). -/
def replaceKhun (s : List Char) : List Char := replaceKhunGo true s

/-! ### Honorific-suffix step -/

def krapStr : List Char := lc "ครับ"
def khaStr : List Char := lc "ค่ะ"

/-- The punctuation part of the class `[\s.!?…]`. -/
def isPunc (c : Char) : Bool := c == '.' || c == '!' || c == '?' || c == '…'

def isClassChar (c : Char) : Bool := isJsWs c || isPunc c

/-- What may follow `ครับ` in `/ครับ(\s|[.!?…]|$)/`: whitespace, the listed
punctuation, or the end of the string. -/
def followOk : List Char → Bool
  | [] => true
  | c :: _ => isJsWs c || isPunc c

/-- `/ครับ(\s|[.!?…]|$)/.test(s)` (webhook.js V2, lines 361-365). -/
def krapTest2 : List Char → Bool
  | [] => false
  | c :: rest =>
    (krapStr.isPrefixOf (c :: rest) && followOk ((c :: rest).drop krapStr.length)) ||
      krapTest2 rest

/-- `/ครับ[\s.!?…]*$/.test(s)` (webhook.js V1, lines 175-179): after removing
the maximal trailing run of class characters, the string ends in `ครับ`.
(The character before any such match is `บ`, not a class character, so the
regex matches exactly when this holds.) -/
def krapTest1 (s : List Char) : Bool :=
  krapStr.reverse.isPrefixOf (s.reverse.dropWhile isClassChar)

/-- webhook.js V2 lines 361-365: append `" ครับ"` when the trimmed string is
non-empty, `/ครับ(\s|[.!?…]|$)/` does not match, and `ค่ะ` does not occur. -/
def krap2 (s : List Char) : List Char :=
  if !(trimL s).isEmpty && !(krapTest2 s) && !(containsSub khaStr s) then
    rtrimL s ++ (' ' :: krapStr)
  else s

/-- webhook.js V1 lines 175-179: `s.replace(/([^\s])\s*$/, "$1 ครับ")` under
the analogous guard; the replace is the identity when the string has no
non-whitespace character. -/
def krap1 (s : List Char) : List Char :=
  if !(krapTest1 s) && !(containsSub khaStr s) && !(trimL s).isEmpty then
    if (rtrimL s).isEmpty then s else rtrimL s ++ (' ' :: krapStr)
  else s

/-! ### enforceThaiRules, three variants -/

/-- The proper-noun block shared by webhook.js V2 (lines 350-353) and
part_000 (lines 164-167): rewrite mis-transliterations, then prepend
`"แก้ว "` if the name is still absent. -/
def enforceStep1V2 (s orig : List Char) : List Char :=
  if containsSub kkaeu orig && !(containsSub kaeo s) then
    let s1 := translitReplace s
    if containsSub kaeo s1 then s1 else kaeo ++ (' ' :: s1)
  else s

/-- The proper-noun block of webhook.js V1 (lines 163-167): rewrite
mis-transliterations, then substitute `แก้ว` for a pronoun `คุณ`/`เธอ`. -/
def enforceStep1V1 (s orig : List Char) : List Char :=
  if containsSub kkaeu orig && !(containsSub kaeo s) then
    let s1 := translitReplace s
    if containsSub kaeo s1 then s1 else replaceKhun s1
  else s

/-- `enforceThaiRules` of webhook.js V1 (lines 159-182). -/
def enforceThaiRulesV1 (thaiOut originalKR : List Char) : List Char :=
  trimL (krap1 (laugh555 (stripHangul (enforceStep1V1 thaiOut originalKR))))

/-- `enforceThaiRules` of webhook.js V2 (lines 346-367). -/
def enforceThaiRulesV2 (thaiOut originalKR : List Char) : List Char :=
  trimL (krap2 (laugh555 (stripHangul (enforceStep1V2 thaiOut originalKR))))

/-- `enforceThaiRules` of part_000 (lines 160-177): no honorific step. -/
def enforceThaiRulesP0 (thaiOut originalKR : List Char) : List Char :=
  trimL (laugh555 (stripHangul (enforceStep1V2 thaiOut originalKR)))

/-! ## Language detection -/

inductive Direction
  | KR_TO_TH
  | TH_TO_KR
deriving DecidableEq

/-- webhook.js `fallbackTranslate` (lines 118-126): `isKR = hasHangul(text)`
selects the Korean→Thai prompt; anything else gets the Thai→Korean prompt. -/
def fallbackDirection (text : List Char) : Direction :=
  if hasHangulB text then .KR_TO_TH else .TH_TO_KR

/-- part_002 handler (lines 180-186): `detectThai(text)` selects Thai→Korean;
anything else gets Korean→Thai. -/
def p2Direction (text : List Char) : Direction :=
  if hasThaiB text then .TH_TO_KR else .KR_TO_TH

/-- The Language Detector contract as the spec words it (§4.1): Hangul
syllable present ⇒ `KR_TO_TH`, else Thai code point present ⇒ `TH_TO_KR`,
else default `KR_TO_TH`.  Declared only for comparison with the two
detectors actually found in the source. -/
def specDirection (text : List Char) : Direction :=
  if hasHangulB text then .KR_TO_TH
  else if hasThaiB text then .TH_TO_KR
  else .KR_TO_TH

/-! ## String-level wrappers used by the handler models -/

/-- The fixed user-facing failure message. -/
def failText : String := "번역에 실패했어요. 다시 시도해 주세요."

def trimS (s : String) : String := String.mk (trimL s.data)

/-- `s.slice(0, 1900)`, the `MAX_LEN` guard of webhook.js. -/
def sliceMax (s : String) : String := String.mk (s.data.take 1900)

def enforceThaiRulesV1S (t orig : String) : String :=
  String.mk (enforceThaiRulesV1 t.data orig.data)

/-! ## webhook.js V1 handler (lines 45-106): reply assembly and event loop -/

/-- The parsed JSON payload `data` as the V1 handler reads it: the fields it
accesses, each possibly absent or of the wrong type (`none`). -/
structure WData where
  mode : String
  th : Option String
  ko_backliteral : Option String
  ko : Option String

/-- Split on `"\n"` (JS `String.prototype.split`). -/
def splitNl : List Char → List (List Char)
  | [] => [[]]
  | c :: cs =>
    if c == '\n' then [] :: splitNl cs
    else
      match splitNl cs with
      | t :: ts => (c :: t) :: ts
      | [] => [[c]]

/-- `out.split("\n").map(trim).filter(Boolean)` of webhook.js V1 line 146. -/
def fbParts (out : String) : List (List Char) :=
  ((splitNl out.data).map trimL).filter (fun l => !l.isEmpty)

/-- `(parts[0] || "").slice(0, MAX_LEN)`. -/
def fbFirst (out : String) : List Char := ((fbParts out).getD 0 []).take 1900

/-- `(parts[1] || "").slice(0, MAX_LEN)`. -/
def fbSecond (out : String) : List Char := ((fbParts out).getD 1 []).take 1900

/-- webhook.js V1 `fallbackTranslate` (lines 144-155), given the trimmed
completion content `out`: empty content yields no messages; Korean input
yields the first one or two non-empty trimmed lines (second line gets the
`(직역)` marker if missing); Thai input yields the content as one message. -/
def fallbackMsgsW1 (isKR : Bool) (out : String) : List String :=
  if out = "" then []
  else if isKR then
    (if !(fbFirst out).isEmpty then [String.mk (fbFirst out)] else []) ++
      (if !(fbSecond out).isEmpty then
        [if (lc "(직역)").isPrefixOf (fbSecond out) then String.mk (fbSecond out)
         else "(직역) " ++ String.mk (fbSecond out)]
      else [])
  else [sliceMax out]

/-- Is the structured payload usable by one of the two typed branches of the
V1 handler (lines 78-91)? -/
def structuredUsable : Option WData → Bool
  | some d => (d.mode == "KR→TH" && d.th.isSome) || (d.mode == "TH→KR" && d.ko.isSome)
  | none => false

/-- webhook.js V1 handler lines 76-96: the outbound message list for one
event, given the parsed payload, the trimmed user text and the fallback
messages (used only when the payload is unusable). -/
def assembleW1 (data : Option WData) (userText : String) (fbMsgs : List String) :
    List String :=
  match data with
  | some ⟨"KR→TH", some t, kb, _⟩ =>
    [sliceMax (enforceThaiRulesV1S t userText)] ++
      (match kb with
       | some b => if 0 < b.data.length then ["(직역) " ++ sliceMax b] else []
       | none => [])
  | some ⟨"TH→KR", _, _, some k⟩ => [sliceMax k]
  | _ => if fbMsgs.isEmpty then [failText] else fbMsgs

/-- One inbound event as the V1 handler sees it.  `completion` is the result
of the first completion call: `Except.error` models a thrown network/JSON
error, `Except.ok` carries the parse result of `safeParseJSON` (`none` when
parsing failed).  `fallbackRaw` likewise models the fallback completion call.
`replyThrows` models a failure of the LINE reply call. -/
structure EvW where
  isText : Bool
  text : String
  completion : Except Unit (Option WData)
  fallbackRaw : Except Unit String
  replyThrows : Bool

/-- The messages the V1 handler passes to `replyToLine` for one event:
`none` when the event is skipped or an exception fires before the reply call
(the per-event `catch` swallows it either way).  A throwing reply call does
not change the attempted messages, so `replyThrows` plays no role here. -/
def eventMsgsW1 (e : EvW) : Option (List String) :=
  if !e.isText then none
  else
    match e.completion with
    | .error _ => none
    | .ok data =>
      let userText := trimS e.text
      if structuredUsable data then some (assembleW1 data userText [])
      else
        match e.fallbackRaw with
        | .error _ => none
        | .ok raw =>
          some (assembleW1 data userText
            (fallbackMsgsW1 (hasHangulB userText.data) (trimS raw)))

/-- The V1 event loop (lines 53-103): each event is processed inside its own
`try`/`catch`, so the loop records one reply attempt per event that reaches
the reply call and always continues. -/
def processW1 : List EvW → List (List String)
  | [] => []
  | e :: rest =>
    match eventMsgsW1 e with
    | some msgs => msgs :: processW1 rest
    | none => processW1 rest

/-- webhook.js handler HTTP status (lines 46 and 105): non-POST requests get
200 immediately; processed deliveries end in 200 (the per-event catch keeps
exceptions away from the response). -/
def handlerStatusW (method : String) : Nat :=
  if method == "POST" then 200 else 200

/-! ## part_002 handler: retry client, reply assembly, status -/

/-- The discriminated outcome of `askOpenAI` (part_002 lines 59-87). -/
structure P2Outcome where
  ok : Bool
  status : Nat
  raw : String

/-- `askWithRetry` (part_002 lines 89-101): `oracle i` is the outcome of the
`i`-th `askOpenAI` call; the fuel is `retries - i`.  With fuel left, a 429
status sleeps and retries; otherwise the outcome is returned at once.  With
no fuel, the last outcome is returned regardless. -/
def askWithRetryGo (oracle : Nat → P2Outcome) : Nat → Nat → P2Outcome
  | i, 0 => oracle i
  | i, Nat.succ fuel =>
    let last := oracle i
    if last.status == 429 then askWithRetryGo oracle (i + 1) fuel else last

def askWithRetry (oracle : Nat → P2Outcome) (retries : Nat) : P2Outcome :=
  askWithRetryGo oracle 0 retries

/-- The backoff delays slept (in ms): `sleep(800 * (i + 1))` before retry
`i + 1`. -/
def retryDelaysGo (oracle : Nat → P2Outcome) : Nat → Nat → List Nat
  | _, 0 => []
  | i, Nat.succ fuel =>
    if (oracle i).status == 429 then (800 * (i + 1)) :: retryDelaysGo oracle (i + 1) fuel
    else []

def retryDelays (oracle : Nat → P2Outcome) (retries : Nat) : List Nat :=
  retryDelaysGo oracle 0 retries

/-- The number of `askOpenAI` calls made. -/
def retryCallsGo (oracle : Nat → P2Outcome) : Nat → Nat → Nat
  | _, 0 => 1
  | i, Nat.succ fuel =>
    if (oracle i).status == 429 then 1 + retryCallsGo oracle (i + 1) fuel else 1

def retryCalls (oracle : Nat → P2Outcome) (retries : Nat) : Nat :=
  retryCallsGo oracle 0 retries

/-- The parsed fields of part_002's JSON payload, after `toString` but before
trimming (lines 203-204). -/
structure P2Parsed where
  translated : Option String
  literal : Option String

/-- part_002 lines 199-219: the `outTexts` list for one event, from the
retry-client outcome and the parse result. -/
def extractTextsP2 (ok : Bool) (parsed : Option P2Parsed) (backliteral : Bool) :
    List String :=
  if ok then
    let translated := trimS ((parsed.bind (·.translated)).getD "")
    let literal := trimS ((parsed.bind (·.literal)).getD "")
    if translated ≠ "" then
      [translated] ++ (if backliteral && literal ≠ "" then ["(직역) " ++ literal] else [])
    else [failText]
  else [failText]

/-- `truncateLine` (part_002 lines 52-56, `LINE_MAX = 2000`). -/
def truncateLineP2 (s : String) : String :=
  if s.data.length ≤ 2000 then s else String.mk (s.data.take 1999 ++ lc "…")

/-- `lineReply` (part_002 lines 104-109): truncate each text; an empty list
is replaced by the fixed failure message. -/
def lineReplyMsgs (texts : List String) : List String :=
  if texts.isEmpty then [failText] else texts.map truncateLineP2

/-- part_002 handler HTTP status (lines 163-229): 405 for non-POST, 500 when
`OPENAI_API_KEY` is missing; otherwise 200 — the whole body is wrapped in a
`try` whose `catch` also responds 200. -/
def handlerStatusP2 (method : String) (hasApiKey : Bool) (bodyThrows : Bool) : Nat :=
  if method ≠ "POST" then 405
  else if !hasApiKey then 500
  else if bodyThrows then 200 else 200

/-- Is a status a success in the HTTP sense? -/
def is2xx (n : Nat) : Bool := 200 ≤ n && n < 300

/-! ## part_003 handler: single fallback hop -/

/-- One completion HTTP response as part_003's `callOpenAI` consumes it.
`cleanedContent` stands for `cleanText(json.choices[0].message.content)`;
the markdown-fence cleaning itself is not load-bearing for any claim and is
absorbed into the oracle. -/
structure P3Resp where
  status : Nat
  jsonOk : Bool
  cleanedContent : String

def respIsOk (r : P3Resp) : Bool := 200 ≤ r.status && r.status < 300

structure AiOut where
  ok : Bool
  text : String

/-- `callOpenAI` (part_003 lines 48-97): JSON-decode failure, a non-2xx
status, or empty cleaned content give a failed outcome; otherwise the text. -/
def callOpenAIP3 (r : P3Resp) : AiOut :=
  if !r.jsonOk then ⟨false, ""⟩
  else if !(respIsOk r) then ⟨false, ""⟩
  else if r.cleanedContent = "" then ⟨false, ""⟩
  else ⟨true, r.cleanedContent⟩

/-- The models part_003 calls for one event (lines 110-121): the configured
model, then — only if that failed and the configured model is not already
`gpt-4o-mini` — the single fallback `gpt-4o-mini`. -/
def p3Calls (primary : String) (resp : String → P3Resp) : List String :=
  if (callOpenAIP3 (resp primary)).ok then [primary]
  else if primary ≠ "gpt-4o-mini" then [primary, "gpt-4o-mini"] else [primary]

/-- The reply text part_003 sends (lines 111-124). -/
def p3ReplyText (primary : String) (resp : String → P3Resp) : String :=
  let ai := callOpenAIP3 (resp primary)
  let ai :=
    if !ai.ok && primary ≠ "gpt-4o-mini" then
      let fb := callOpenAIP3 (resp "gpt-4o-mini")
      if fb.ok then fb else ai
    else ai
  if ai.ok && ai.text ≠ "" then ai.text else failText

/-- part_003 handler HTTP status (lines 99-144): 405 for non-POST; a single
outer `try` turns any exception while processing events into a 500. -/
def handlerStatusP3 (method : String) (processingThrows : Bool) : Nat :=
  if method ≠ "POST" then 405
  else if processingThrows then 500 else 200

/-! ## part_001 handler: three-model chain, unguarded reply call -/

/-- The payload `parseLooseJSON` yields on success for part_001. -/
structure P1Out where
  primary : String
  backtranslation : Option String

/-- `filter((v, i, arr) => arr.indexOf(v) === i)`: keep first occurrences. -/
def dedupFirstGo (seen : List String) : List String → List String
  | [] => []
  | x :: xs =>
    if seen.contains x then dedupFirstGo seen xs
    else x :: dedupFirstGo (x :: seen) xs

/-- The model order of `translateWithFallback` (part_001 lines 82-86). -/
def modelOrderP1 (m : String) : List String :=
  dedupFirstGo [] [m, "gpt-4o", "gpt-4o-mini"]

/-- The loop of `translateWithFallback` (part_001 lines 88-97): try each
model in order with the same payload until one call succeeds; record every
`callOpenAI` invocation as a (model, payload) pair. -/
def tryModelsP1 (resp : String → Option P1Out) (payload : String) :
    List String → Option P1Out × List (String × String)
  | [] => (none, [])
  | mo :: ms =>
    match resp mo with
    | some r => (some r, [(mo, payload)])
    | none =>
      let rec' := tryModelsP1 resp payload ms
      (rec'.1, (mo, payload) :: rec'.2)

def translateWithFallbackCalls (m : String) (resp : String → Option P1Out)
    (payload : String) : List (String × String) :=
  (tryModelsP1 resp payload (modelOrderP1 m)).2

/-- One inbound event as part_001's loop sees it.  `translate` is the result
of `translateWithFallback`: `Except.error` models the rethrow after all
models failed. -/
structure EvP1 where
  isText : Bool
  translate : Except Unit P1Out
  replyThrows : Bool

/-- The reply text part_001 builds for one event (lines 132-144). -/
def replyTextP1 (e : EvP1) : String :=
  match e.translate with
  | .ok r =>
    match r.backtranslation with
    | some b => if trimS b ≠ "" then r.primary ++ "\n(" ++ b ++ ")" else r.primary
    | none => r.primary
  | .error _ => failText

/-- The part_001 event loop (lines 106-158).  Only the translate call sits in
a `try`; the LINE reply `fetch` is unguarded, so a throwing reply aborts the
loop (and the handler).  Returns the reply texts attempted, and whether the
loop ran to completion. -/
def processP1 : List EvP1 → List String × Bool
  | [] => ([], true)
  | e :: rest =>
    if !e.isText then processP1 rest
    else
      let rt := replyTextP1 e
      if e.replyThrows then ([rt], false)
      else
        let p := processP1 rest
        (rt :: p.1, p.2)

/-- part_001 handler HTTP status (lines 100-161): 405 for non-POST; there is
no outer `try`, so an aborted loop means no status is ever written (`none`,
surfaced by the platform as a server error). -/
def handlerStatusP1 (method : String) (evs : List EvP1) : Option Nat :=
  if method ≠ "POST" then some 405
  else if (processP1 evs).2 then some 200 else none

/-! ## Generic scanning lemmas -/

theorem dropWhile_append_cons {p : Char → Bool} {y : Char} (xs ys : List Char)
    (hy : p y = false) :
    List.dropWhile p (xs ++ y :: ys) = List.dropWhile p xs ++ y :: ys := by
  rw [List.dropWhile_append]
  by_cases h : (List.dropWhile p xs).isEmpty
  · rw [if_pos h, List.dropWhile_cons, hy]
    simp only [List.isEmpty_iff] at h
    rw [h]
    simp
  · rw [if_neg h]

theorem containsSub_iff (w s : List Char) : containsSub w s = true ↔ w <:+: s := by
  induction s with
  | nil =>
    simp only [containsSub, List.isEmpty_iff]
    constructor
    · rintro rfl; exact List.nil_infix
    · intro h
      have := h.sublist.length_le
      simpa using List.eq_nil_of_length_eq_zero (Nat.le_zero.mp (by simpa using this))
  | cons c rest ih =>
    simp only [containsSub, Bool.or_eq_true, List.isPrefixOf_iff_prefix, ih]
    rw [List.infix_cons_iff]

theorem rtrimL_prefix_self (s : List Char) : rtrimL s <+: s := by
  obtain ⟨t, ht⟩ := List.dropWhile_suffix (l := s.reverse) isJsWs
  refine ⟨t.reverse, ?_⟩
  have h := congrArg List.reverse ht
  rw [List.reverse_append] at h
  simpa [rtrimL] using h

theorem mem_rtrimL {c : Char} {s : List Char} (h : c ∈ rtrimL s) : c ∈ s :=
  (rtrimL_prefix_self s).sublist.subset h

theorem mem_trimL {c : Char} {s : List Char} (h : c ∈ trimL s) : c ∈ s := by
  have h1 : c ∈ List.dropWhile isJsWs s := mem_rtrimL h
  exact (List.dropWhile_suffix isJsWs).sublist.subset h1

theorem rtrimL_append_of_last {w : List Char} (a b : List Char) (hne : w ≠ [])
    (hlast : isJsWs (w.getLast hne) = false) :
    rtrimL (a ++ w ++ b) = a ++ w ++ rtrimL b := by
  have hw : w.dropLast ++ [w.getLast hne] = w := List.dropLast_concat_getLast hne
  unfold rtrimL
  rw [List.reverse_append, List.reverse_append, ← hw, List.reverse_append]
  simp only [List.reverse_cons, List.reverse_nil, List.nil_append, List.append_assoc,
    List.cons_append]
  rw [dropWhile_append_cons _ _ hlast]
  simp [List.reverse_append]

theorem dropWhile_ws_append_of_head {c : Char} {w₁ : List Char} (a b : List Char)
    (hc : isJsWs c = false) :
    List.dropWhile isJsWs (a ++ (c :: w₁) ++ b) =
      List.dropWhile isJsWs a ++ (c :: w₁) ++ b := by
  rw [List.append_assoc, List.cons_append, dropWhile_append_cons _ _ hc]
  simp [List.append_assoc]

theorem trimL_append_split {c : Char} {w₁ : List Char} (a b : List Char)
    (hc : isJsWs c = false)
    (hlast : isJsWs ((c :: w₁).getLast (by simp)) = false) :
    trimL (a ++ (c :: w₁) ++ b) =
      List.dropWhile isJsWs a ++ (c :: w₁) ++ rtrimL b := by
  unfold trimL
  rw [dropWhile_ws_append_of_head a b hc,
    rtrimL_append_of_last (List.dropWhile isJsWs a) b (by simp) hlast]

theorem infix_trimL {c : Char} {w₁ s : List Char}
    (hc : isJsWs c = false)
    (hlast : isJsWs ((c :: w₁).getLast (by simp)) = false)
    (h : (c :: w₁) <:+: s) : (c :: w₁) <:+: trimL s := by
  obtain ⟨a, b, rfl⟩ := h
  rw [trimL_append_split a b hc hlast]
  exact ⟨List.dropWhile isJsWs a, rtrimL b, rfl⟩

theorem infix_rtrimL {c : Char} {w₁ s : List Char}
    (hlast : isJsWs ((c :: w₁).getLast (by simp)) = false)
    (h : (c :: w₁) <:+: s) : (c :: w₁) <:+: rtrimL s := by
  obtain ⟨a, b, rfl⟩ := h
  rw [rtrimL_append_of_last a b (by simp) hlast]
  exact ⟨a, rtrimL b, rfl⟩

theorem infix_stripHangul {w s : List Char} (hw : ∀ c ∈ w, isHangulSyl c = false)
    (h : w <:+: s) : w <:+: stripHangul s := by
  obtain ⟨a, b, rfl⟩ := h
  unfold stripHangul
  rw [List.filter_append, List.filter_append]
  have hww : w.filter (fun c => !(isHangulSyl c)) = w := by
    rw [List.filter_eq_self]
    intro c hcw
    simp [hw c hcw]
  exact ⟨a.filter _, b.filter _, by rw [hww]⟩

theorem stripHangul_no_syl (s : List Char) :
    ∀ c ∈ stripHangul s, isHangulSyl c = false := by
  intro c hc
  have := List.of_mem_filter hc
  simpa using this

/-! ## Lemmas about the laughter-normalization scan -/

theorem laughGo_cons (m : Option Char) (d : Char) (rest : List Char) :
    laughGo m (d :: rest) =
      if skipEq m d then laughGo m rest
      else if isLaugh d && rest.head? == some d then
        '5' :: '5' :: '5' :: laughGo (some d) rest
      else d :: laughGo none rest := rfl

theorem laughGo_some_eq (c : Char) (l : List Char) :
    laughGo (some c) l = laughGo none (l.dropWhile (· == c)) := by
  induction l with
  | nil => rfl
  | cons d rest ih =>
    by_cases hd : (d == c) = true
    · rw [laughGo_cons, if_pos (show skipEq (some c) d = true from hd), ih,
        List.dropWhile_cons, if_pos hd]
    · rw [List.dropWhile_cons, if_neg hd, laughGo_cons, laughGo_cons,
        if_neg (show ¬ skipEq (some c) d = true from by simpa [skipEq] using hd),
        if_neg (show ¬ skipEq (none : Option Char) d = true from by simp [skipEq])]

theorem laughGo_none_cons (d : Char) (rest : List Char) :
    laughGo none (d :: rest) =
      if isLaugh d && rest.head? == some d then
        '5' :: '5' :: '5' :: laughGo none (rest.dropWhile (· == d))
      else d :: laughGo none rest := by
  rw [laughGo_cons, if_neg (by simp [skipEq])]
  by_cases h : (isLaugh d && rest.head? == some d) = true
  · rw [if_pos h, if_pos h, laughGo_some_eq]
  · rw [if_neg h, if_neg h]

theorem laughGo_none_append {w : List Char} (hw : ∀ c ∈ w, isLaugh c = false)
    (b : List Char) : laughGo none (w ++ b) = w ++ laughGo none b := by
  induction w with
  | nil => rfl
  | cons c w' ih =>
    rw [List.cons_append, laughGo_none_cons,
      if_neg (by simp [hw c (by simp)]), ih (fun d hd => hw d (by simp [hd]))]
    rfl

theorem laughGo_none_mem :
    ∀ (n : Nat) (l : List Char), l.length ≤ n →
      ∀ c ∈ laughGo none l, c ∈ l ∨ c = '5' := by
  intro n
  induction n with
  | zero =>
    intro l hl c hc
    have : l = [] := List.eq_nil_of_length_eq_zero (Nat.le_zero.mp hl)
    subst this
    simp [laughGo] at hc
  | succ n ih =>
    intro l hl c hc
    match l, hl with
    | [], _ => simp [laughGo] at hc
    | d :: rest, hl =>
      rw [laughGo_none_cons] at hc
      by_cases h : (isLaugh d && rest.head? == some d) = true
      · rw [if_pos h] at hc
        simp only [List.mem_cons] at hc
        rcases hc with rfl | rfl | rfl | hc
        · exact Or.inr rfl
        · exact Or.inr rfl
        · exact Or.inr rfl
        · have hlen : (rest.dropWhile (· == d)).length ≤ n := by
            have h1 := (List.dropWhile_sublist (l := rest) (· == d)).length_le
            have h2 : rest.length ≤ n := by simpa using Nat.le_of_succ_le_succ hl
            exact Nat.le_trans h1 h2
          rcases ih _ hlen c hc with hmem | h5
          · exact Or.inl (List.mem_cons_of_mem d
              ((List.dropWhile_sublist (· == d)).subset hmem))
          · exact Or.inr h5
      · rw [if_neg h] at hc
        rcases List.mem_cons.mp hc with rfl | hc
        · exact Or.inl (List.mem_cons_self _ _)
        · have hlen : rest.length ≤ n := by simpa using Nat.le_of_succ_le_succ hl
          rcases ih _ hlen c hc with hmem | h5
          · exact Or.inl (List.mem_cons_of_mem d hmem)
          · exact Or.inr h5

theorem laugh555_mem {c : Char} {s : List Char} (hc : c ∈ laugh555 s) :
    c ∈ s ∨ c = '5' :=
  laughGo_none_mem s.length s (Nat.le_refl _) c hc

/-- The relation that holds between adjacent characters of a normalized
string: no laughter character is immediately repeated. -/
def Rlaugh (a b : Char) : Prop := ¬(isLaugh a = true ∧ b = a)

theorem laughGo_none_head? (l : List Char) (d : Char)
    (h : (laughGo none l).head? = some d) : d = '5' ∨ l.head? = some d := by
  match l with
  | [] => simp [laughGo] at h
  | e :: rest =>
    rw [laughGo_none_cons] at h
    by_cases hcond : (isLaugh e && rest.head? == some e) = true
    · rw [if_pos hcond] at h
      simp only [List.head?_cons, Option.some.injEq] at h
      exact Or.inl h.symm
    · rw [if_neg hcond] at h
      simp only [List.head?_cons, Option.some.injEq] at h
      exact Or.inr (by simp [h])

theorem laughGo_none_chain :
    ∀ (n : Nat) (l : List Char), l.length ≤ n → List.Chain' Rlaugh (laughGo none l) := by
  intro n
  induction n with
  | zero =>
    intro l hl
    have : l = [] := List.eq_nil_of_length_eq_zero (Nat.le_zero.mp hl)
    subst this
    simp [laughGo]
  | succ n ih =>
    intro l hl
    match l, hl with
    | [], _ => simp [laughGo]
    | d :: rest, hl =>
      rw [laughGo_none_cons]
      by_cases h : (isLaugh d && rest.head? == some d) = true
      · rw [if_pos h]
        have hlen : (rest.dropWhile (· == d)).length ≤ n := by
          have h1 := (List.dropWhile_sublist (l := rest) (· == d)).length_le
          have h2 : rest.length ≤ n := by simpa using Nat.le_of_succ_le_succ hl
          exact Nat.le_trans h1 h2
        refine List.chain'_cons.mpr ⟨?_, List.chain'_cons.mpr ⟨?_, ?_⟩⟩
        · rintro ⟨h5, -⟩; revert h5; decide
        · rintro ⟨h5, -⟩; revert h5; decide
        · refine List.chain'_cons'.mpr ⟨?_, ih _ hlen⟩
          rintro y - ⟨h5, -⟩; revert h5; decide
      · rw [if_neg h]
        have hlen : rest.length ≤ n := by simpa using Nat.le_of_succ_le_succ hl
        refine List.chain'_cons'.mpr ⟨?_, ih _ hlen⟩
        intro y hy
        rcases laughGo_none_head? rest y hy with rfl | hhead
        · rintro ⟨hd, h5⟩
          subst h5
          revert hd; decide
        · rintro ⟨hd, rfl⟩
          simp only [Bool.not_eq_true, Bool.and_eq_false_iff] at h
          rcases h with h | h
          · exact absurd hd (by simp [h])
          · simp [hhead] at h

theorem laughGo_none_of_chain' :
    ∀ (l : List Char), List.Chain' Rlaugh l → laughGo none l = l := by
  intro l hl
  induction l with
  | nil => rfl
  | cons d rest ih =>
    rw [laughGo_none_cons]
    have hcond : (isLaugh d && rest.head? == some d) = false := by
      match rest, hl with
      | [], _ => simp
      | e :: rest', hl =>
        have hr := (List.chain'_cons.mp hl).1
        rw [Bool.and_eq_false_iff]
        by_cases hld : isLaugh d = true
        · refine Or.inr ?_
          simp only [List.head?_cons, beq_eq_false_iff_ne, ne_eq, Option.some.injEq]
          intro he
          exact hr ⟨hld, he⟩
        · exact Or.inl (by simpa using hld)
    rw [if_neg (by simp [hcond]), ih hl.tail]

theorem laughGo_none_infix {c : Char} {w₁ : List Char}
    (hnl : ∀ x ∈ (c :: w₁), isLaugh x = false) :
    ∀ (n : Nat) (a b : List Char), a.length ≤ n →
      (c :: w₁) <:+: laughGo none (a ++ (c :: w₁) ++ b) := by
  intro n
  induction n with
  | zero =>
    intro a b ha
    have : a = [] := List.eq_nil_of_length_eq_zero (Nat.le_zero.mp ha)
    subst this
    rw [List.nil_append, laughGo_none_append hnl b]
    exact ⟨[], laughGo none b, rfl⟩
  | succ n ih =>
    intro a b ha
    match a, ha with
    | [], _ =>
      rw [List.nil_append, laughGo_none_append hnl b]
      exact ⟨[], laughGo none b, rfl⟩
    | d :: a', ha =>
      have ha' : a'.length ≤ n := by simpa using Nat.le_of_succ_le_succ ha
      have harr : (d :: a') ++ (c :: w₁) ++ b = d :: (a' ++ (c :: (w₁ ++ b))) := by
        simp
      rw [harr, laughGo_none_cons]
      by_cases h : (isLaugh d && (a' ++ (c :: (w₁ ++ b))).head? == some d) = true
      · rw [if_pos h]
        have hcd : ((c : Char) == d) = false := by
          have h1 : isLaugh d = true := by
            simp only [Bool.and_eq_true] at h
            exact h.1
          have h2 : isLaugh c = false := hnl c (by simp)
          simp only [beq_eq_false_iff_ne, ne_eq]
          intro he
          rw [he, h1] at h2
          simp at h2
        rw [dropWhile_append_cons (p := (· == d)) a' (w₁ ++ b) hcd]
        have hrest := ih (List.dropWhile (· == d) a') b
          (Nat.le_trans (List.dropWhile_sublist (· == d)).length_le ha')
        rw [show List.dropWhile (· == d) a' ++ (c :: w₁) ++ b =
            List.dropWhile (· == d) a' ++ (c :: (w₁ ++ b)) from by simp] at hrest
        exact List.infix_cons (List.infix_cons (List.infix_cons hrest))
      · rw [if_neg h]
        have hrest := ih a' b ha'
        rw [show a' ++ (c :: w₁) ++ b = a' ++ (c :: (w₁ ++ b)) from by simp] at hrest
        exact List.infix_cons hrest

theorem laugh555_infix {c : Char} {w₁ s : List Char}
    (hnl : ∀ x ∈ (c :: w₁), isLaugh x = false)
    (h : (c :: w₁) <:+: s) : (c :: w₁) <:+: laugh555 s := by
  obtain ⟨a, b, rfl⟩ := h
  exact laughGo_none_infix hnl a.length a b (Nat.le_refl _)

/-! ## Lemmas about the honorific-suffix tests -/

theorem krapStr_cons : krapStr = 'ค' :: lc "รับ" := rfl
theorem khaStr_cons : khaStr = 'ค' :: lc "่ะ" := rfl
theorem kaeo_cons : kaeo = 'แ' :: lc "ก้ว" := rfl
theorem krapRev_cons : krapStr.reverse = 'บ' :: lc "ัรค" := by decide

theorem krapTest2_cons (c : Char) (rest : List Char) :
    krapTest2 (c :: rest) =
      ((krapStr.isPrefixOf (c :: rest) &&
        followOk ((c :: rest).drop krapStr.length)) || krapTest2 rest) := rfl

theorem krapTest2_iff (s : List Char) :
    krapTest2 s = true ↔ ∃ a b, s = a ++ krapStr ++ b ∧ followOk b = true := by
  induction s with
  | nil =>
    simp only [krapTest2]
    constructor
    · intro h; exact absurd h (by simp)
    · rintro ⟨a, b, hab, -⟩
      have hlen := congrArg List.length hab
      have h4 : krapStr.length = 4 := rfl
      simp only [List.length_nil, List.length_append, h4] at hlen
      omega
  | cons c rest ih =>
    rw [krapTest2_cons, Bool.or_eq_true, Bool.and_eq_true, ih]
    constructor
    · rintro (⟨hp, hf⟩ | ⟨a, b, rfl, hf⟩)
      · obtain ⟨t, ht⟩ := List.isPrefixOf_iff_prefix.mp hp
        refine ⟨[], t, by rw [List.nil_append, ht], ?_⟩
        rw [← ht, List.drop_left] at hf
        exact hf
      · exact ⟨c :: a, b, rfl, hf⟩
    · rintro ⟨a, b, hab, hf⟩
      match a, hab with
      | [], hab =>
        rw [List.nil_append] at hab
        refine Or.inl ⟨List.isPrefixOf_iff_prefix.mpr ⟨b, hab.symm⟩, ?_⟩
        rw [hab, List.drop_left]
        exact hf
      | a0 :: a', hab =>
        have hrest : rest = a' ++ krapStr ++ b := by
          have := List.tail_eq_of_cons_eq hab
          simpa using this
        exact Or.inr ⟨a', b, hrest, hf⟩

theorem krapTest2_append_end (y : List Char) : krapTest2 (y ++ krapStr) = true :=
  (krapTest2_iff _).mpr ⟨y, [], by simp, rfl⟩

theorem followOk_rtrimL {b : List Char} (hf : followOk b = true) :
    followOk (rtrimL b) = true := by
  match hrb : rtrimL b with
  | [] => rfl
  | r0 :: rb =>
    obtain ⟨t, ht⟩ := rtrimL_prefix_self b
    rw [hrb] at ht
    rw [← ht] at hf
    simpa [followOk] using hf

theorem krapTest2_trimL {s : List Char} (h : krapTest2 s = true) :
    krapTest2 (trimL s) = true := by
  obtain ⟨a, b, rfl, hf⟩ := (krapTest2_iff s).mp h
  rw [krapStr_cons, trimL_append_split a b (by decide) (by decide), ← krapStr_cons]
  exact (krapTest2_iff _).mpr
    ⟨List.dropWhile isJsWs a, rtrimL b, by simp, followOk_rtrimL hf⟩

theorem krapTest1_iff (s : List Char) :
    krapTest1 s = true ↔ ∃ a b, s = a ++ krapStr ++ b ∧ b.all isClassChar = true := by
  unfold krapTest1
  rw [List.isPrefixOf_iff_prefix]
  constructor
  · rintro ⟨t, ht⟩
    refine ⟨t.reverse, (List.takeWhile isClassChar s.reverse).reverse, ?_, ?_⟩
    · conv_lhs =>
        rw [← List.reverse_reverse s,
          ← List.takeWhile_append_dropWhile (p := isClassChar) (l := s.reverse),
          ← ht]
      simp [List.reverse_append]
    · rw [List.all_eq_true]
      intro c hc
      exact List.mem_takeWhile_imp (List.mem_reverse.mp hc)
  · rintro ⟨a, b, rfl, hb⟩
    rw [List.reverse_append, List.reverse_append]
    rw [List.dropWhile_append_of_pos (by
      intro x hx
      exact (List.all_eq_true.mp hb) x (List.mem_reverse.mp hx))]
    rw [krapRev_cons, List.cons_append, List.dropWhile_cons, if_neg (by decide)]
    exact ⟨a.reverse, by simp [krapRev_cons]⟩

theorem krapTest1_append_end (y : List Char) : krapTest1 (y ++ krapStr) = true :=
  (krapTest1_iff _).mpr ⟨y, [], by simp, rfl⟩

theorem krapTest1_trimL {s : List Char} (h : krapTest1 s = true) :
    krapTest1 (trimL s) = true := by
  obtain ⟨a, b, rfl, hb⟩ := (krapTest1_iff s).mp h
  rw [krapStr_cons, trimL_append_split a b (by decide) (by decide), ← krapStr_cons]
  refine (krapTest1_iff _).mpr ⟨List.dropWhile isJsWs a, rtrimL b, by simp, ?_⟩
  rw [List.all_eq_true]
  intro c hc
  exact (List.all_eq_true.mp hb) c (mem_rtrimL hc)

/-! ## Emptiness and non-whitespace bookkeeping for `trim` -/

theorem rtrimL_decomp (s : List Char) :
    s = rtrimL s ++ (s.reverse.takeWhile isJsWs).reverse := by
  have h := List.takeWhile_append_dropWhile (l := s.reverse) isJsWs
  have h2 := congrArg List.reverse h
  rw [List.reverse_reverse, List.reverse_append] at h2
  exact h2.symm

theorem mem_rtrimL_of_not_ws {c : Char} {s : List Char} (hc : c ∈ s)
    (hw : isJsWs c = false) : c ∈ rtrimL s := by
  have hc2 : c ∈ rtrimL s ++ (s.reverse.takeWhile isJsWs).reverse := by
    rw [← rtrimL_decomp s]
    exact hc
  rcases List.mem_append.mp hc2 with h | h
  · exact h
  · have := List.mem_takeWhile_imp (List.mem_reverse.mp h)
    rw [hw] at this
    exact absurd this (by simp)

theorem trimL_eq_nil_iff (s : List Char) :
    trimL s = [] ↔ ∀ c ∈ s, isJsWs c = true := by
  unfold trimL rtrimL
  rw [List.reverse_eq_nil_iff, List.dropWhile_eq_nil_iff]
  constructor
  · intro h c hc
    by_cases hw : isJsWs c = true
    · exact hw
    · have hc2 : c ∈ List.dropWhile isJsWs s := by
        have hsplit := List.takeWhile_append_dropWhile (l := s) isJsWs
        rcases List.mem_append.mp (by rw [hsplit]; exact hc) with h1 | h1
        · exact absurd (List.mem_takeWhile_imp h1) hw
        · exact h1
      exact h c (List.mem_reverse.mpr hc2)
  · intro h c hc
    exact h c ((List.dropWhile_sublist isJsWs).subset (List.mem_reverse.mp hc))

theorem not_all_ws_of_trim_ne {s : List Char} (h : ¬ trimL s = []) :
    ∃ c ∈ s, isJsWs c = false := by
  by_contra hall
  push_neg at hall
  exact h ((trimL_eq_nil_iff s).mpr (fun c hc => by
    have := hall c hc
    simpa using this))

theorem dropWhile_ws_rtrim_ne {s : List Char} (h : ¬ trimL s = []) :
    ¬ (List.dropWhile isJsWs (rtrimL s)).isEmpty = true := by
  obtain ⟨c, hc, hw⟩ := not_all_ws_of_trim_ne h
  have hmem : c ∈ rtrimL s := mem_rtrimL_of_not_ws hc hw
  intro hempty
  rw [List.isEmpty_iff, List.dropWhile_eq_nil_iff] at hempty
  have := hempty c hmem
  rw [hw] at this
  exact absurd this (by simp)

theorem rtrimL_ne_nil {s : List Char} (h : ¬ trimL s = []) : ¬ (rtrimL s).isEmpty = true := by
  obtain ⟨c, hc, hw⟩ := not_all_ws_of_trim_ne h
  have hmem : c ∈ rtrimL s := mem_rtrimL_of_not_ws hc hw
  intro hempty
  rw [List.isEmpty_iff] at hempty
  rw [hempty] at hmem
  exact absurd hmem (List.not_mem_nil c)

/-- The trimmed form of the append-branch result: trimming
`rtrimL s ++ " ครับ"` keeps the `ครับ` suffix intact. -/
theorem trimL_append_krap {s : List Char} (h : ¬ trimL s = []) :
    trimL (rtrimL s ++ (' ' :: krapStr)) =
      (List.dropWhile isJsWs (rtrimL s) ++ [' ']) ++ krapStr := by
  unfold trimL
  rw [List.dropWhile_append, if_neg (by
    intro hempty
    exact dropWhile_ws_rtrim_ne h hempty)]
  have harr : List.dropWhile isJsWs (rtrimL s) ++ ' ' :: krapStr =
      (List.dropWhile isJsWs (rtrimL s) ++ [' ']) ++ krapStr ++ [] := by simp
  rw [harr, rtrimL_append_of_last _ _ (by rw [krapStr_cons]; simp) (by
    rw [show (krapStr.getLast (by rw [krapStr_cons]; simp)) = 'บ' from by decide]
    decide)]
  simp [rtrimL]

/-! ## No Hangul syllable survives the pipeline tail -/

theorem noSyl_trimL {s : List Char} (h : ∀ c ∈ s, isHangulSyl c = false) :
    ∀ c ∈ trimL s, isHangulSyl c = false :=
  fun c hc => h c (mem_trimL hc)

theorem noSyl_laugh555 {s : List Char} (h : ∀ c ∈ s, isHangulSyl c = false) :
    ∀ c ∈ laugh555 s, isHangulSyl c = false := by
  intro c hc
  rcases laugh555_mem hc with hm | rfl
  · exact h c hm
  · decide

theorem noSyl_krap2 {s : List Char} (h : ∀ c ∈ s, isHangulSyl c = false) :
    ∀ c ∈ krap2 s, isHangulSyl c = false := by
  intro c hc
  unfold krap2 at hc
  split at hc
  · rcases List.mem_append.mp hc with hm | hm
    · exact h c (mem_rtrimL hm)
    · revert hm
      have : ∀ c ∈ (' ' :: krapStr), isHangulSyl c = false := by decide
      exact this c
  · exact h c hc

theorem noSyl_krap1 {s : List Char} (h : ∀ c ∈ s, isHangulSyl c = false) :
    ∀ c ∈ krap1 s, isHangulSyl c = false := by
  intro c hc
  unfold krap1 at hc
  split at hc
  · split at hc
    · exact h c hc
    · rcases List.mem_append.mp hc with hm | hm
      · exact h c (mem_rtrimL hm)
      · revert hm
        have : ∀ c ∈ (' ' :: krapStr), isHangulSyl c = false := by decide
        exact this c
  · exact h c hc

theorem noSyl_enforceV1 (t k : List Char) :
    ∀ c ∈ enforceThaiRulesV1 t k, isHangulSyl c = false :=
  noSyl_trimL (noSyl_krap1 (noSyl_laugh555 (stripHangul_no_syl _)))

theorem noSyl_enforceV2 (t k : List Char) :
    ∀ c ∈ enforceThaiRulesV2 t k, isHangulSyl c = false :=
  noSyl_trimL (noSyl_krap2 (noSyl_laugh555 (stripHangul_no_syl _)))

theorem noSyl_enforceP0 (t k : List Char) :
    ∀ c ∈ enforceThaiRulesP0 t k, isHangulSyl c = false :=
  noSyl_trimL (noSyl_laugh555 (stripHangul_no_syl _))

/-! ## `แก้ว` survives the pipeline tail -/

theorem infix_append_right' {w x y : List Char} (h : w <:+: x) : w <:+: x ++ y := by
  obtain ⟨a, b, rfl⟩ := h
  exact ⟨a, b ++ y, by simp⟩

theorem kaeo_infix_trimL {s : List Char} (h : kaeo <:+: s) : kaeo <:+: trimL s := by
  rw [kaeo_cons] at h ⊢
  exact infix_trimL (by decide) (by decide) h

theorem kaeo_infix_laugh {s : List Char} (h : kaeo <:+: s) : kaeo <:+: laugh555 s := by
  rw [kaeo_cons] at h ⊢
  exact laugh555_infix (by decide) h

theorem kaeo_infix_strip {s : List Char} (h : kaeo <:+: s) : kaeo <:+: stripHangul s :=
  infix_stripHangul (by decide) h

theorem kaeo_infix_krap2 {s : List Char} (h : kaeo <:+: s) : kaeo <:+: krap2 s := by
  unfold krap2
  split
  · refine infix_append_right' ?_
    rw [kaeo_cons] at h ⊢
    exact infix_rtrimL (by decide) h
  · exact h

theorem kaeo_infix_step1V2 {t k : List Char} (hk : containsSub kkaeu k = true) :
    kaeo <:+: enforceStep1V2 t k := by
  by_cases h2 : containsSub kaeo t = true
  · have he : enforceStep1V2 t k = t := by simp [enforceStep1V2, h2]
    rw [he]
    exact (containsSub_iff kaeo t).mp h2
  · by_cases h3 : containsSub kaeo (translitReplace t) = true
    · have he : enforceStep1V2 t k = translitReplace t := by
        simp [enforceStep1V2, hk, h2, h3]
      rw [he]
      exact (containsSub_iff _ _).mp h3
    · have he : enforceStep1V2 t k = kaeo ++ (' ' :: translitReplace t) := by
        simp [enforceStep1V2, hk, h2, h3]
      rw [he]
      exact ⟨[], ' ' :: translitReplace t, by simp⟩

theorem kaeo_infix_enforceV2 {t k : List Char} (hk : containsSub kkaeu k = true) :
    kaeo <:+: enforceThaiRulesV2 t k :=
  kaeo_infix_trimL (kaeo_infix_krap2 (kaeo_infix_laugh (kaeo_infix_strip
    (kaeo_infix_step1V2 hk))))

theorem kaeo_infix_enforceP0 {t k : List Char} (hk : containsSub kkaeu k = true) :
    kaeo <:+: enforceThaiRulesP0 t k :=
  kaeo_infix_trimL (kaeo_infix_laugh (kaeo_infix_strip (kaeo_infix_step1V2 hk)))

/-! ## The honorific guarantee of the post-processed output -/

theorem krap_out_spec2 (s3 : List Char) :
    trimL (krap2 s3) = [] ∨ khaStr <:+: trimL (krap2 s3) ∨
      krapTest2 (trimL (krap2 s3)) = true := by
  by_cases hA : (trimL s3).isEmpty = true
  · rw [show krap2 s3 = s3 from by unfold krap2; rw [if_neg (by simp [hA])]]
    exact Or.inl (List.isEmpty_iff.mp hA)
  · by_cases hB : krapTest2 s3 = true
    · rw [show krap2 s3 = s3 from by unfold krap2; rw [if_neg (by simp [hB])]]
      exact Or.inr (Or.inr (krapTest2_trimL hB))
    · by_cases hC : containsSub khaStr s3 = true
      · rw [show krap2 s3 = s3 from by unfold krap2; rw [if_neg (by simp [hC])]]
        refine Or.inr (Or.inl ?_)
        have h := (containsSub_iff _ _).mp hC
        rw [khaStr_cons] at h ⊢
        exact infix_trimL (by decide) (by decide) h
      · rw [show krap2 s3 = rtrimL s3 ++ (' ' :: krapStr) from by
          unfold krap2; rw [if_pos (by simp [hA, hB, hC])]]
        refine Or.inr (Or.inr ?_)
        rw [trimL_append_krap (by rw [List.isEmpty_iff] at hA; exact hA)]
        exact krapTest2_append_end _

theorem krap_out_spec1 (s3 : List Char) :
    trimL (krap1 s3) = [] ∨ khaStr <:+: trimL (krap1 s3) ∨
      krapTest1 (trimL (krap1 s3)) = true := by
  by_cases hA : (trimL s3).isEmpty = true
  · rw [show krap1 s3 = s3 from by unfold krap1; rw [if_neg (by simp [hA])]]
    exact Or.inl (List.isEmpty_iff.mp hA)
  · by_cases hB : krapTest1 s3 = true
    · rw [show krap1 s3 = s3 from by unfold krap1; rw [if_neg (by simp [hB])]]
      exact Or.inr (Or.inr (krapTest1_trimL hB))
    · by_cases hC : containsSub khaStr s3 = true
      · rw [show krap1 s3 = s3 from by unfold krap1; rw [if_neg (by simp [hC])]]
        refine Or.inr (Or.inl ?_)
        have h := (containsSub_iff _ _).mp hC
        rw [khaStr_cons] at h ⊢
        exact infix_trimL (by decide) (by decide) h
      · have hne : ¬ trimL s3 = [] := by rw [List.isEmpty_iff] at hA; exact hA
        rw [show krap1 s3 = rtrimL s3 ++ (' ' :: krapStr) from by
          unfold krap1
          rw [if_pos (by simp [hA, hB, hC]), if_neg (rtrimL_ne_nil hne)]]
        refine Or.inr (Or.inr ?_)
        rw [trimL_append_krap hne]
        exact krapTest1_append_end _

/-! ## Reply-assembly bookkeeping -/

theorem truncate_fail : truncateLineP2 failText = failText := by decide

theorem p2_msgs_spec (ok : Bool) (parsed : Option P2Parsed) (b : Bool) :
    (1 ≤ (lineReplyMsgs (extractTextsP2 ok parsed b)).length ∧
      (lineReplyMsgs (extractTextsP2 ok parsed b)).length ≤ 2) ∧
    ((lineReplyMsgs (extractTextsP2 ok parsed b)).length = 2 ↔
      (ok = true ∧ trimS ((parsed.bind (·.translated)).getD "") ≠ "" ∧
        b = true ∧ trimS ((parsed.bind (·.literal)).getD "") ≠ "")) ∧
    ((ok = false ∨ trimS ((parsed.bind (·.translated)).getD "") = "") →
      lineReplyMsgs (extractTextsP2 ok parsed b) = [failText]) := by
  by_cases hok : ok = true
  · subst hok
    by_cases htr : trimS ((parsed.bind (·.translated)).getD "") = ""
    · simp [extractTextsP2, lineReplyMsgs, htr, truncate_fail]
    · by_cases hb : b = true
      · subst hb
        by_cases hl : trimS ((parsed.bind (·.literal)).getD "") = ""
        · simp [extractTextsP2, lineReplyMsgs, htr, hl]
        · simp [extractTextsP2, lineReplyMsgs, htr, hl]
      · have hb' : b = false := by
          cases b
          · rfl
          · exact absurd rfl hb
        subst hb'
        simp [extractTextsP2, lineReplyMsgs, htr]
  · have hok' : ok = false := by
      cases ok
      · rfl
      · exact absurd rfl hok
    subst hok'
    simp [extractTextsP2, lineReplyMsgs, truncate_fail]

theorem fallbackMsgsW1_len (isKR : Bool) (out : String) :
    (fallbackMsgsW1 isKR out).length ≤ 2 := by
  unfold fallbackMsgsW1
  by_cases h0 : out = ""
  · simp [h0]
  · rw [if_neg h0]
    by_cases hk : isKR = true
    · rw [if_pos hk, List.length_append]
      have h1 : ∀ (c : Bool) (x : List String), x.length ≤ 1 →
          (if c = true then x else []).length ≤ 1 := by
        intro c x hx
        cases c <;> simp [hx]
      exact Nat.add_le_add (h1 _ _ (by simp)) (h1 _ _ (by simp))
    · rw [if_neg hk]
      simp

theorem assembleW1_len (data : Option WData) (ut : String) (fb : List String)
    (hfb : fb.length ≤ 2) :
    1 ≤ (assembleW1 data ut fb).length ∧ (assembleW1 data ut fb).length ≤ 2 := by
  unfold assembleW1
  split
  · split
    · split <;> simp
    · simp
  · simp
  · split
    · simp
    · rename_i hne
      constructor
      · have : ¬ fb = [] := by
          intro hnil
          rw [hnil] at hne
          simp at hne
        exact Nat.succ_le_of_lt (List.length_pos.mpr this)
      · exact hfb

theorem assembleW1_failure (data : Option WData) (ut : String) (isKR : Bool)
    (out : String) (hd : structuredUsable data = false) (hout : out = "") :
    assembleW1 data ut (fallbackMsgsW1 isKR out) = [failText] := by
  have hfb : fallbackMsgsW1 isKR out = [] := by
    unfold fallbackMsgsW1
    rw [if_pos hout]
  rw [hfb]
  unfold assembleW1
  split
  · simp [structuredUsable] at hd
  · simp [structuredUsable] at hd
  · simp

/-! ## Event-loop isolation -/

theorem processW1_cons (e : EvW) (rest : List EvW) :
    processW1 (e :: rest) =
      (match eventMsgsW1 e with
       | some msgs => msgs :: processW1 rest
       | none => processW1 rest) := rfl

theorem processW1_append (xs ys : List EvW) :
    processW1 (xs ++ ys) = processW1 xs ++ processW1 ys := by
  induction xs with
  | nil => rfl
  | cons e rest ih =>
    rw [List.cons_append, processW1_cons, processW1_cons]
    cases eventMsgsW1 e <;> simp [ih]

theorem processP1_done (evs : List EvP1) :
    (processP1 evs).2 = !(evs.any (fun e => e.isText && e.replyThrows)) := by
  induction evs with
  | nil => rfl
  | cons e rest ih =>
    by_cases ht : e.isText = true
    · by_cases hr : e.replyThrows = true
      · simp [processP1, ht, hr]
      · have hr' : e.replyThrows = false := by
          cases h : e.replyThrows
          · rfl
          · exact absurd h hr
        simp [processP1, ht, hr', ih]
    · have ht' : e.isText = false := by
        cases h : e.isText
        · rfl
        · exact absurd h ht
      simp [processP1, ht', ih]

/-! ## Model-fallback bookkeeping -/

theorem tryModelsP1_cons (resp : String → Option P1Out) (payload mo : String)
    (ms : List String) :
    tryModelsP1 resp payload (mo :: ms) =
      (match resp mo with
       | some r => (some r, [(mo, payload)])
       | none =>
         ((tryModelsP1 resp payload ms).1,
           (mo, payload) :: (tryModelsP1 resp payload ms).2)) := rfl

theorem tryModelsP1_calls_models (resp : String → Option P1Out) (payload : String) :
    ∀ ms : List String, ((tryModelsP1 resp payload ms).2.map Prod.fst) <+: ms := by
  intro ms
  induction ms with
  | nil => exact ⟨[], rfl⟩
  | cons mo ms ih =>
    rw [tryModelsP1_cons]
    cases hr : resp mo
    · simp only [hr]
      obtain ⟨t, ht⟩ := ih
      exact ⟨t, by simp [ht]⟩
    · simp only [hr]
      exact ⟨ms, by simp⟩

theorem tryModelsP1_calls_payload (resp : String → Option P1Out) (payload : String) :
    ∀ ms : List String, ∀ pr ∈ (tryModelsP1 resp payload ms).2, pr.2 = payload := by
  intro ms
  induction ms with
  | nil => intro pr hpr; simp [tryModelsP1] at hpr
  | cons mo ms ih =>
    intro pr hpr
    rw [tryModelsP1_cons] at hpr
    cases hr : resp mo
    · simp only [hr] at hpr
      rcases List.mem_cons.mp hpr with rfl | hpr
      · rfl
      · exact ih pr hpr
    · simp only [hr, List.mem_singleton] at hpr
      rw [hpr]

theorem dedupFirstGo_len (seen : List String) (l : List String) :
    (dedupFirstGo seen l).length ≤ l.length := by
  induction l generalizing seen with
  | nil => simp [dedupFirstGo]
  | cons x xs ih =>
    unfold dedupFirstGo
    split
    · exact Nat.le_trans (ih seen) (Nat.le_succ _)
    · simpa using ih (x :: seen)

/-! ## Claim theorems -/

/-- C1 (counterexample): with source `"깨우"` and model output `"ㅋ"`, the V2
post-processor emits `"แก้ว ㅋ ครับ"`, which still contains the Hangul
compatibility jamo `ㅋ` — so the output is not free of Hangul code points as
the claim states; moreover the V1 variant (lines 159-182) does not even
guarantee `แก้ว` (output `"สวัสดี"` gains no `แก้ว`). -/
theorem C1_counterexample :
    containsSub kkaeu (lc "깨우") = true ∧
    (enforceThaiRulesV2 (lc "ㅋ") (lc "깨우")).any isHangulChar = true ∧
    ¬ (kaeo <:+: enforceThaiRulesV1 (lc "สวัสดี") (lc "깨우")) :=
  ⟨by decide, by decide, by decide⟩

/-- C1 (amended): for every model output and every Korean source containing
`"깨우"`, the prepending variants of `enforceThaiRules` (webhook.js lines
346-367 and part_000) produce an output that contains `"แก้ว"` and contains
no precomposed Hangul-syllable code point (U+AC00–U+D7A3); standalone
compatibility jamo may survive, and the variant at lines 159-182 guarantees
`แก้ว` only when a known mis-transliteration or the pronouns `คุณ`/`เธอ`
appear in the model output. -/
theorem C1_amended (thaiOut originalKR : List Char)
    (h : containsSub kkaeu originalKR = true) :
    (kaeo <:+: enforceThaiRulesV2 thaiOut originalKR) ∧
    (kaeo <:+: enforceThaiRulesP0 thaiOut originalKR) ∧
    (enforceThaiRulesV2 thaiOut originalKR).all (fun c => !(isHangulSyl c)) = true ∧
    (enforceThaiRulesP0 thaiOut originalKR).all (fun c => !(isHangulSyl c)) = true := by
  refine ⟨kaeo_infix_enforceV2 h, kaeo_infix_enforceP0 h, ?_, ?_⟩
  · rw [List.all_eq_true]
    intro c hc
    simp [noSyl_enforceV2 thaiOut originalKR c hc]
  · rw [List.all_eq_true]
    intro c hc
    simp [noSyl_enforceP0 thaiOut originalKR c hc]

/-- C1 (witness): the amended theorem applied to the concrete source `"깨우"`
and model output `"สวัสดี"`. -/
theorem C1_witness :
    containsSub kkaeu (lc "깨우") = true ∧
    ((kaeo <:+: enforceThaiRulesV2 (lc "สวัสดี") (lc "깨우")) ∧
     (kaeo <:+: enforceThaiRulesP0 (lc "สวัสดี") (lc "깨우")) ∧
     (enforceThaiRulesV2 (lc "สวัสดี") (lc "깨우")).all
       (fun c => !(isHangulSyl c)) = true ∧
     (enforceThaiRulesP0 (lc "สวัสดี") (lc "깨우")).all
       (fun c => !(isHangulSyl c)) = true) :=
  ⟨by decide, C1_amended (lc "สวัสดี") (lc "깨우") (by decide)⟩

/-- C2 (counterexample): a POST delivery with `OPENAI_API_KEY` missing is
answered 500 by the part_002 handler, and a POST delivery whose event
processing throws is answered 500 by the part_003 handler — both 5xx, not
success. -/
theorem C2_counterexample :
    handlerStatusP2 "POST" false false = 500 ∧ is2xx 500 = false ∧
    handlerStatusP3 "POST" true = 500 :=
  ⟨by decide, by decide, by decide⟩

/-- C2 (amended): the webhook.js handler always answers 200; the part_002
handler answers 500 exactly for a POST with missing `OPENAI_API_KEY`; the
part_003 handler answers 500 exactly for a POST whose event processing
throws; the part_001 handler writes no status at all exactly when a POST's
event loop is aborted by a throwing reply call. -/
theorem C2_amended (method : String) (hk bt pt : Bool) (evs : List EvP1) :
    is2xx (handlerStatusW method) = true ∧
    (handlerStatusP2 method hk bt = 500 ↔ (method = "POST" ∧ hk = false)) ∧
    (handlerStatusP3 method pt = 500 ↔ (method = "POST" ∧ pt = true)) ∧
    (handlerStatusP1 method evs = none ↔
      (method = "POST" ∧ (processP1 evs).2 = false)) := by
  by_cases hm : method = "POST"
  · subst hm
    refine ⟨by simp [handlerStatusW, is2xx], ?_, ?_, ?_⟩
    · cases hk <;> cases bt <;> simp [handlerStatusP2]
    · cases pt <;> simp [handlerStatusP3]
    · cases hp : (processP1 evs).2 <;> simp [handlerStatusP1, hp]
  · refine ⟨by simp [handlerStatusW, is2xx], ?_, ?_, ?_⟩
    · simp [handlerStatusP2, hm]
    · simp [handlerStatusP3, hm]
    · simp [handlerStatusP1, hm]

/-- C3 (counterexample): a well-formed structured `KR→TH` payload whose Thai
field is pure Hangul (`"안녕"`) is post-processed to the empty string, so the
V1 handler replies with a single empty segment, not with the fixed failure
string. -/
theorem C3_counterexample :
    eventMsgsW1 ⟨true, "안녕",
      Except.ok (some ⟨"KR→TH", some "안녕", none, none⟩),
      Except.ok "", false⟩ = some [""] ∧
    ("" : String) ≠ failText :=
  ⟨by decide, by decide⟩

/-- C3 (amended): every reply list has 1 or 2 segments, never 0.  In part_002
the list has 2 segments exactly when the call succeeded, the trimmed
translation is non-empty, `BACKLITERAL` is on and the trimmed literal is
non-empty; whenever the call failed or the trimmed translation is empty the
single segment is the fixed failure string.  In webhook.js V1 the failure
string is substituted when the structured payload is unusable and the
fallback output is empty; a structured payload whose primary text is emptied
by post-processing yields a single empty segment instead. -/
theorem C3_amended (ok : Bool) (parsed : Option P2Parsed) (b : Bool)
    (data : Option WData) (userText raw : String) (isKR : Bool) :
    (1 ≤ (lineReplyMsgs (extractTextsP2 ok parsed b)).length ∧
      (lineReplyMsgs (extractTextsP2 ok parsed b)).length ≤ 2) ∧
    ((lineReplyMsgs (extractTextsP2 ok parsed b)).length = 2 ↔
      (ok = true ∧ trimS ((parsed.bind (·.translated)).getD "") ≠ "" ∧
        b = true ∧ trimS ((parsed.bind (·.literal)).getD "") ≠ "")) ∧
    ((ok = false ∨ trimS ((parsed.bind (·.translated)).getD "") = "") →
      lineReplyMsgs (extractTextsP2 ok parsed b) = [failText]) ∧
    (1 ≤ (assembleW1 data userText (fallbackMsgsW1 isKR raw)).length ∧
      (assembleW1 data userText (fallbackMsgsW1 isKR raw)).length ≤ 2) ∧
    (structuredUsable data = false → raw = "" →
      assembleW1 data userText (fallbackMsgsW1 isKR raw) = [failText]) := by
  obtain ⟨h1, h2, h3⟩ := p2_msgs_spec ok parsed b
  exact ⟨h1, h2, h3,
    assembleW1_len data userText _ (fallbackMsgsW1_len isKR raw),
    fun hd hraw => assembleW1_failure data userText isKR raw hd hraw⟩

/-- C4 (counterexample): in part_001, a text event whose LINE reply call
throws aborts the loop — with two text events the second is never replied
to, although processed alone it would be. -/
theorem C4_counterexample :
    processP1 [⟨true, Except.ok ⟨"สวัสดีครับ", none⟩, true⟩,
      ⟨true, Except.ok ⟨"ok", none⟩, false⟩] = (["สวัสดีครับ"], false) ∧
    processP1 [⟨true, Except.ok ⟨"ok", none⟩, false⟩] = (["ok"], true) :=
  ⟨by decide, by decide⟩

/-- C4 (amended): the webhook.js event loop is compositional — each event's
reply attempt depends only on that event, so a failure (translate or
reply-delivery) never affects sibling events; the part_001 loop instead runs
to completion exactly when no text event's reply call throws. -/
theorem C4_amended (xs ys : List EvW) (evs : List EvP1) :
    processW1 (xs ++ ys) = processW1 xs ++ processW1 ys ∧
    (processP1 evs).2 = !(evs.any fun e => e.isText && e.replyThrows) :=
  ⟨processW1_append xs ys, processP1_done evs⟩

/-- C5 (counterexample): the webhook.js fallback detector sends Latin-only
input (`"hello"`) to the Thai→Korean direction, while the spec contract
defaults it to Korean→Thai; the part_002 detector sends mixed input
(`"가ก"`) to Thai→Korean, while the contract's Hangul priority demands
Korean→Thai. -/
theorem C5_counterexample :
    fallbackDirection (lc "hello") = Direction.TH_TO_KR ∧
    specDirection (lc "hello") = Direction.KR_TO_TH ∧
    p2Direction (lc "가ก") = Direction.TH_TO_KR ∧
    specDirection (lc "가ก") = Direction.KR_TO_TH := by
  refine ⟨by decide, by decide, by decide, by decide⟩

/-- C5 (amended): the webhook.js fallback detector agrees with the spec
contract exactly on inputs containing a Hangul syllable or a Thai code point
(it sends script-free input to Thai→Korean); the part_002 detector agrees
with the contract exactly on inputs not containing both scripts (it sends
mixed input to Thai→Korean).  Neither implements the contract in full. -/
theorem C5_amended (s : List Char) :
    (fallbackDirection s = specDirection s ↔ (hasHangulB s || hasThaiB s) = true) ∧
    (p2Direction s = specDirection s ↔ (hasHangulB s && hasThaiB s) = false) := by
  cases hh : hasHangulB s <;> cases ht : hasThaiB s <;>
    simp [fallbackDirection, p2Direction, specDirection, hh, ht]

theorem askWithRetryGo_zero (oracle : Nat → P2Outcome) (i : Nat) :
    askWithRetryGo oracle i 0 = oracle i := rfl

theorem askWithRetryGo_succ (oracle : Nat → P2Outcome) (i fuel : Nat) :
    askWithRetryGo oracle i (fuel + 1) =
      if (oracle i).status == 429 then askWithRetryGo oracle (i + 1) fuel
      else oracle i := rfl

theorem retryDelaysGo_zero (oracle : Nat → P2Outcome) (i : Nat) :
    retryDelaysGo oracle i 0 = [] := rfl

theorem retryDelaysGo_succ (oracle : Nat → P2Outcome) (i fuel : Nat) :
    retryDelaysGo oracle i (fuel + 1) =
      if (oracle i).status == 429 then
        (800 * (i + 1)) :: retryDelaysGo oracle (i + 1) fuel
      else [] := rfl

theorem retryCallsGo_zero (oracle : Nat → P2Outcome) (i : Nat) :
    retryCallsGo oracle i 0 = 1 := rfl

theorem retryCallsGo_succ (oracle : Nat → P2Outcome) (i fuel : Nat) :
    retryCallsGo oracle i (fuel + 1) =
      if (oracle i).status == 429 then 1 + retryCallsGo oracle (i + 1) fuel
      else 1 := rfl

theorem p3Calls_count_self (m : String) (resp : String → P3Resp) :
    (p3Calls m resp).count m = 1 := by
  unfold p3Calls
  by_cases hok : (callOpenAIP3 (resp m)).ok = true
  · rw [if_pos hok]
    simp [List.count_cons]
  · rw [if_neg hok]
    by_cases hm : m = "gpt-4o-mini"
    · rw [if_neg (by simp [hm])]
      simp [List.count_cons]
    · rw [if_pos hm]
      have hne : ("gpt-4o-mini" == m) = false := by
        simp only [beq_eq_false_iff_ne, ne_eq]
        intro he
        exact hm he.symm
      simp [List.count_cons, hne]

/-- C6 (counterexample): in part_003 a completion attempt that comes back
HTTP 429 is not retried at all — the primary model is called exactly once
and the handler immediately falls back to `gpt-4o-mini`, contradicting the
claimed two same-model retries before any non-429 outcome. -/
theorem C6_counterexample :
    ((fun mo => if mo == "gpt-4o" then P3Resp.mk 429 true "x"
      else P3Resp.mk 200 true "สวัสดีครับ") "gpt-4o").status = 429 ∧
    p3Calls "gpt-4o" (fun mo => if mo == "gpt-4o" then P3Resp.mk 429 true "x"
      else P3Resp.mk 200 true "สวัสดีครับ") = ["gpt-4o", "gpt-4o-mini"] ∧
    (p3Calls "gpt-4o" (fun mo => if mo == "gpt-4o" then P3Resp.mk 429 true "x"
      else P3Resp.mk 200 true "สวัสดีครับ")).count "gpt-4o" = 1 :=
  ⟨by decide, by decide, by decide⟩

/-- C6 (amended): in part_002, `askWithRetry` retries the same model up to 2
additional times on 429 with backoff delays 800ms then 1600ms, returning the
first non-429 outcome immediately (and the third outcome unconditionally);
part_002 has no fallback model.  In part_003 there are no 429 retries: every
event calls the configured model exactly once, and any failure — including a
429 — falls through directly to the single fallback model. -/
theorem C6_amended (oracle : Nat → P2Outcome) (m : String) (resp : String → P3Resp) :
    (askWithRetry oracle 2 =
      (if (oracle 0).status == 429 then
        (if (oracle 1).status == 429 then oracle 2 else oracle 1)
       else oracle 0)) ∧
    (retryDelays oracle 2 =
      (if (oracle 0).status == 429 then
        (if (oracle 1).status == 429 then [800, 1600] else [800])
       else [])) ∧
    (retryCalls oracle 2 =
      (if (oracle 0).status == 429 then
        (if (oracle 1).status == 429 then 3 else 2)
       else 1)) ∧
    (p3Calls m resp).count m = 1 := by
  refine ⟨?_, ?_, ?_, p3Calls_count_self m resp⟩
  · show askWithRetryGo oracle 0 2 = _
    rw [show (2 : Nat) = 1 + 1 from rfl, askWithRetryGo_succ]
    by_cases h0 : ((oracle 0).status == 429) = true
    · rw [if_pos h0, if_pos h0, askWithRetryGo_succ]
      by_cases h1 : ((oracle 1).status == 429) = true
      · rw [if_pos h1, if_pos h1, askWithRetryGo_zero]
      · rw [if_neg h1, if_neg h1]
    · rw [if_neg h0, if_neg h0]
  · show retryDelaysGo oracle 0 2 = _
    rw [show (2 : Nat) = 1 + 1 from rfl, retryDelaysGo_succ]
    by_cases h0 : ((oracle 0).status == 429) = true
    · rw [if_pos h0, if_pos h0, retryDelaysGo_succ]
      by_cases h1 : ((oracle 1).status == 429) = true
      · rw [if_pos h1, if_pos h1, retryDelaysGo_zero]
      · rw [if_neg h1, if_neg h1]
    · rw [if_neg h0, if_neg h0]
  · show retryCallsGo oracle 0 2 = _
    rw [show (2 : Nat) = 1 + 1 from rfl, retryCallsGo_succ]
    by_cases h0 : ((oracle 0).status == 429) = true
    · rw [if_pos h0, if_pos h0, retryCallsGo_succ]
      by_cases h1 : ((oracle 1).status == 429) = true
      · rw [if_pos h1, if_pos h1, retryCallsGo_zero]
      · rw [if_neg h1, if_neg h1]
    · rw [if_neg h0, if_neg h0]

/-- C7 (counterexample): with a configured model distinct from the
hard-coded ones (the comment in part_001 itself advertises
`gpt-5 → gpt-4o → gpt-4o-mini`), a persistent failure makes
`translateWithFallback` attempt three models — a third model is attempted,
contradicting the at-most-one-fallback-hop claim. -/
theorem C7_counterexample :
    (translateWithFallbackCalls "gpt-5" (fun _ => none) "p").map Prod.fst =
      ["gpt-5", "gpt-4o", "gpt-4o-mini"] ∧
    ((translateWithFallbackCalls "gpt-5" (fun _ => none) "p").map Prod.fst).length = 3 :=
  ⟨by decide, by decide⟩

/-- C7 (amended): part_003 performs at most one fallback hop — it calls
either the configured model alone or the configured model followed by
`gpt-4o-mini`.  part_001 instead tries the deduplicated list
`[configured, gpt-4o, gpt-4o-mini]` in order until the first success, each
call carrying the same message payload: at most three models, i.e. up to two
fallback hops. -/
theorem C7_amended (m : String) (resp3 : String → P3Resp)
    (resp1 : String → Option P1Out) (payload : String) :
    (p3Calls m resp3 = [m] ∨ p3Calls m resp3 = [m, "gpt-4o-mini"]) ∧
    ((translateWithFallbackCalls m resp1 payload).map Prod.fst <+: modelOrderP1 m) ∧
    (∀ pr ∈ translateWithFallbackCalls m resp1 payload, pr.2 = payload) ∧
    (modelOrderP1 m).length ≤ 3 := by
  refine ⟨?_, tryModelsP1_calls_models resp1 payload _,
    tryModelsP1_calls_payload resp1 payload _, ?_⟩
  · unfold p3Calls
    by_cases hok : (callOpenAIP3 (resp3 m)).ok = true
    · rw [if_pos hok]
      exact Or.inl rfl
    · rw [if_neg hok]
      by_cases hm : m = "gpt-4o-mini"
      · rw [if_neg (by simp [hm])]
        exact Or.inl rfl
      · rw [if_pos hm]
        exact Or.inr rfl
  · exact Nat.le_trans (dedupFirstGo_len [] _) (by simp)

/-- C8 (counterexample): the V1 post-processor leaves `"ค่ะ ไป"` unchanged —
a non-empty output that ends neither in `ครับ` nor in `ค่ะ` — because the
code tests `includes("ค่ะ")` anywhere rather than at the end, contradicting
the claimed append. -/
theorem C8_counterexample :
    enforceThaiRulesV1 (lc "ค่ะ ไป") [] = lc "ค่ะ ไป" ∧
    ¬ (krapStr <:+ enforceThaiRulesV1 (lc "ค่ะ ไป") []) ∧
    ¬ (khaStr <:+ enforceThaiRulesV1 (lc "ค่ะ ไป") []) ∧
    enforceThaiRulesV1 (lc "ค่ะ ไป") [] ≠ [] :=
  ⟨by decide, by decide, by decide, by decide⟩

/-- C8 (amended): the honorific step keys on occurrences, not endings: every
final output of the honorific-enforcing variants is empty, or contains
`ค่ะ` somewhere, or satisfies the variant's own `ครับ` test (V1: ends in
`ครับ` followed only by whitespace/punctuation; V2: contains `ครับ`
followed by whitespace, sentence punctuation, or the end).  In particular a
non-empty output with no `ค่ะ` anywhere and no such `ครับ` occurrence ends
in the appended `" ครับ"`. -/
theorem C8_amended (t k : List Char) :
    (enforceThaiRulesV1 t k = [] ∨ khaStr <:+: enforceThaiRulesV1 t k ∨
      krapTest1 (enforceThaiRulesV1 t k) = true) ∧
    (enforceThaiRulesV2 t k = [] ∨ khaStr <:+: enforceThaiRulesV2 t k ∨
      krapTest2 (enforceThaiRulesV2 t k) = true) :=
  ⟨krap_out_spec1 (laugh555 (stripHangul (enforceStep1V1 t k))),
   krap_out_spec2 (laugh555 (stripHangul (enforceStep1V2 t k)))⟩

theorem laugh555_chain_all (s : List Char) : List.Chain' Rlaugh (laugh555 s) :=
  laughGo_none_chain s.length s (Nat.le_refl _)

/-- C9: the laughter-normalization step — the JS replace of every run
matching `ㅋㅋ+`, `ㅎㅎ+` or `하하+` by `"555"` — is idempotent: applying it
twice yields the same result as applying it once. -/
theorem C9_laughter_idempotent (s : List Char) :
    laugh555 (laugh555 s) = laugh555 s :=
  laughGo_none_of_chain' _ (laugh555_chain_all s)

/-- C10: for every model output and every Korean source text, the output of
each `enforceThaiRules` variant contains no precomposed Hangul-syllable code
point (U+AC00–U+D7A3): the syllable-stripping step runs after the name
prepending, and the later steps insert only `"555"`, Thai text, or nothing. -/
theorem C10_no_hangul_syllable (t k : List Char) :
    (enforceThaiRulesV1 t k).all (fun c => !(isHangulSyl c)) = true ∧
    (enforceThaiRulesV2 t k).all (fun c => !(isHangulSyl c)) = true ∧
    (enforceThaiRulesP0 t k).all (fun c => !(isHangulSyl c)) = true := by
  refine ⟨?_, ?_, ?_⟩
  · rw [List.all_eq_true]
    intro c hc
    simp [noSyl_enforceV1 t k c hc]
  · rw [List.all_eq_true]
    intro c hc
    simp [noSyl_enforceV2 t k c hc]
  · rw [List.all_eq_true]
    intro c hc
    simp [noSyl_enforceP0 t k c hc]

end LineTh
